import Mathlib

/-!
Shallow embedding of `src/county-to-zipcode.py` (a county → zipcode CSV
export tool). The program loads (zipcode, county, state) records, derives a
composite key `county_state = county ++ ", " ++ state`, filters rows by a
user selection, groups the filtered rows by `county_state` (pandas
`groupby`, which iterates groups in ascending lexicographic key order and
keeps input row order inside each group), renders each group as a
one-column CSV (`zipcode` header, one zipcode per line, trailing newline,
minimal quoting) and writes one archive entry per group, named
`<sanitized key>_<timestamp>.csv` where the timestamp is formatted
`%Y%m%d_%H%M%S` once per build. Python strings are modelled as Lean
`String`, dataframes as `List Row`, the in-memory zip archive as the list
of written entries (`zipfile.writestr` appends an entry even when the name
repeats), and `datetime.now()` as an explicit `DateTime` argument.
-/

/-- Lexicographic (code-point) order on character lists, non-strict.
Mirrors Python's string comparison, which pandas `groupby` uses to sort
group keys. -/
def charListLe : List Char → List Char → Bool
  | [], _ => true
  | _ :: _, [] => false
  | a :: as, b :: bs =>
    if a.toNat < b.toNat then true
    else if b.toNat < a.toNat then false
    else charListLe as bs

/-- Lexicographic (code-point) order on character lists, strict. -/
def charListLt : List Char → List Char → Bool
  | [], [] => false
  | [], _ :: _ => true
  | _ :: _, [] => false
  | a :: as, b :: bs =>
    if a.toNat < b.toNat then true
    else if b.toNat < a.toNat then false
    else charListLt as bs

/-- Non-strict lexicographic order on strings (Python `s1 <= s2`). -/
def strLe (a b : String) : Bool := charListLe a.data b.data

/-- Strict lexicographic order on strings (Python `s1 < s2`). -/
def strLt (a b : String) : Bool := charListLt a.data b.data

/-- Check whether `pat` is a prefix of the second list (by `==` on chars). -/
def listStarts : List Char → List Char → Bool
  | [], _ => true
  | _ :: _, [] => false
  | p :: ps, c :: cs => p == c && listStarts ps cs

/-- Scan-and-replace over characters, as Python `str.replace` does: at each
position, if the (non-empty) pattern matches, emit the replacement and skip
the matched characters, otherwise keep one character and move on; matches
never overlap. The `Nat` argument is fuel; each step consumes at least one
input character, so fuel = input length never runs out (the `0, s => s`
branch is unreachable from `replaceAll`). -/
def replaceAllAux (pat rep : List Char) : Nat → List Char → List Char
  | _, [] => []
  | 0, s => s
  | n + 1, c :: cs =>
    if listStarts pat (c :: cs) then
      rep ++ replaceAllAux pat rep n (cs.drop (pat.length - 1))
    else
      c :: replaceAllAux pat rep n cs

/-- Python `s.replace(pat, rep)` for a non-empty pattern (the only patterns
this program uses, `", "`, `" "` and `"\""`, are non-empty). -/
def replaceAll (s pat rep : String) : String :=
  if pat.data = [] then s
  else String.mk (replaceAllAux pat.data rep.data s.data.length s.data)

/-- Filename sanitization from `create_zip_archive` (line 57 of the source):
`county_name.replace(', ', '_').replace(' ', '_')`. -/
def sanitize (county_name : String) : String :=
  replaceAll (replaceAll county_name ", " "_") " " "_"

/-- Left-pad the decimal rendering of `n` with zeros to width `w`, as the
zero-padded `strftime` directives do. -/
def padZeros (w : Nat) (n : Nat) : String :=
  String.mk (List.replicate (w - (toString n).length) '0') ++ toString n

/-- Wall-clock instant, the relevant fields of Python's `datetime`. -/
structure DateTime where
  year : Nat
  month : Nat
  day : Nat
  hour : Nat
  minute : Nat
  second : Nat

/-- The build timestamp `datetime.now().strftime("%Y%m%d_%H%M%S")`
(line 49 of the source): zero-padded year, month, day, underscore, hour,
minute, second. -/
def tsFormat (t : DateTime) : String :=
  padZeros 4 t.year ++ padZeros 2 t.month ++ padZeros 2 t.day ++ "_" ++
  padZeros 2 t.hour ++ padZeros 2 t.minute ++ padZeros 2 t.second

/-- A raw record from the external provider (`uszipcode`); its `zipcode`
field is already a string. -/
structure RawRecord where
  zipcode : String
  county : String
  state : String
deriving DecidableEq

/-- A row of the loaded dataframe, restricted to the columns the archive
builder reads: `zipcode` (kept as a string by `astype(str)`, which is the
identity on a string column) and the derived key
`county_state = county + ", " + state`. -/
structure Row where
  zipcode : String
  county_state : String
deriving DecidableEq

/-- The per-record transform inside `load_data` (lines 28-32 of the
source): keep `zipcode` verbatim (`astype(str)` on a string column) and
derive `county_state`. -/
def toRow (r : RawRecord) : Row :=
  { zipcode := r.zipcode, county_state := r.county ++ ", " ++ r.state }

/-- The `load_data` function (lines 11-36 of the source). The external
fetch (`SearchEngine().by_state(...)` plus the dataframe construction) is
modelled as an `Except`: `ok` carries the fetched records, `error` the
exception text. On success the records are mapped to rows; on any
exception the function shows an error message via `st.error` (modelled as
the second component) and returns an empty dataframe. -/
def load_data (fetch : Except String (List RawRecord)) :
    List Row × Option String :=
  match fetch with
  | Except.ok all_zips => (all_zips.map toRow, none)
  | Except.error e =>
      ([], some ("Failed to load data. Please check the data source. Error: " ++ e))

/-- The selection filter in `main` (line 100 of the source):
`df[df['county_state'].isin(selected_counties)]`. -/
def filterRows (df : List Row) (selected_counties : List String) : List Row :=
  df.filter (fun r => selected_counties.contains r.county_state)

/-- Insert a key into a list sorted by `strLe`, keeping it sorted. -/
def insertKey (x : String) : List String → List String
  | [] => [x]
  | y :: ys => if strLe x y then x :: y :: ys else y :: insertKey x ys

/-- Insertion sort by `strLe`. -/
def sortKeys : List String → List String
  | [] => []
  | x :: xs => insertKey x (sortKeys xs)

/-- The group keys of `df_filtered.groupby('county_state')` (line 53 of
the source): the distinct `county_state` values, iterated in ascending
lexicographic order (pandas sorts group keys by default). -/
def groupKeys (df_filtered : List Row) : List String :=
  sortKeys (df_filtered.map Row.county_state).dedup

/-- The rows of one `groupby` group: the rows whose key matches, in input
order (pandas grouping is stable inside a group). -/
def groupRows (df_filtered : List Row) (key : String) : List Row :=
  df_filtered.filter (fun r => r.county_state == key)

/-- CSV minimal-quoting test used by pandas `to_csv` (QUOTE_MINIMAL): a
field needs quoting iff it contains a delimiter, a quote or a line break. -/
def needsQuoting (s : String) : Bool :=
  s.data.any (fun c => c == ',' || c == '"' || c == '\n' || c == '\r')

/-- Render one CSV field: quote (doubling inner quotes) only when needed. -/
def csvField (s : String) : String :=
  if needsQuoting s then "\"" ++ replaceAll s "\"" "\"\"" ++ "\"" else s

/-- The data lines of `group[['zipcode']].to_csv(index=False)`: one
rendered field per row, each line terminated by a newline. -/
def csvBody : List String → String
  | [] => ""
  | z :: zs => csvField z ++ "\n" ++ csvBody zs

/-- The CSV text `group[['zipcode']].to_csv(index=False)` (line 60 of the
source): header line `zipcode`, then one zipcode per line, every line
newline-terminated. -/
def to_csv (zipcodes : List String) : String :=
  "zipcode\n" ++ csvBody zipcodes

/-- One entry written into the zip archive by `zip_file.writestr`. -/
structure Entry where
  filename : String
  content : String
deriving DecidableEq

/-- The name passed to `writestr` (line 57 of the source):
`f"{county_name.replace(', ', '_').replace(' ', '_')}_{timestamp}.csv"`. -/
def entryFilename (county_name timestamp : String) : String :=
  sanitize county_name ++ "_" ++ timestamp ++ ".csv"

/-- The `create_zip_archive` function (lines 38-67 of the source). The
timestamp is computed once from `now` before the loop; the archive is the
list of entries written by `writestr`, one per `groupby` group, in group
iteration order. `writestr` appends an entry unconditionally, even when an
earlier entry already used the same name, so the archive is exactly this
list. -/
def create_zip_archive (now : DateTime) (df_filtered : List Row) : List Entry :=
  let timestamp := tsFormat now
  (groupKeys df_filtered).map (fun county_name =>
    { filename := entryFilename county_name timestamp,
      content := to_csv ((groupRows df_filtered county_name).map Row.zipcode) })

/-- Split a character stream at `'\n'` (accumulator holds the current line
reversed). A trailing newline yields a final empty fragment, as Python's
`split('\n')` does. -/
def splitLinesAux : List Char → List Char → List (List Char)
  | [], acc => [acc.reverse]
  | c :: cs, acc =>
    if c = '\n' then acc.reverse :: splitLinesAux cs []
    else splitLinesAux cs (c :: acc)

/-- Split a string into its `'\n'`-separated fragments. -/
def splitLines (s : String) : List String :=
  (splitLinesAux s.data []).map String.mk

/-- The body lines of a newline-terminated CSV text: drop the header line
and the empty fragment after the final newline. -/
def bodyLines (s : String) : List String :=
  ((splitLines s).drop 1).dropLast

/-- Unfold `charListLe` on two cons cells into an arithmetic disjunction. -/
theorem charListLe_cons_iff (x y : Char) (xs ys : List Char) :
    charListLe (x :: xs) (y :: ys) = true ↔
      x.toNat < y.toNat ∨ (x.toNat = y.toNat ∧ charListLe xs ys = true) := by
  simp only [charListLe]
  by_cases h1 : x.toNat < y.toNat
  · simp [h1]
  · by_cases h2 : y.toNat < x.toNat
    · rw [if_neg h1, if_pos h2]
      constructor
      · intro h; cases h
      · rintro (h | ⟨h, -⟩) <;> omega
    · have hxy : x.toNat = y.toNat := by omega
      rw [if_neg h1, if_neg h2]
      constructor
      · intro h; exact Or.inr ⟨hxy, h⟩
      · rintro (h | ⟨-, h⟩)
        · omega
        · exact h

/-- Unfold `charListLt` on two cons cells into an arithmetic disjunction. -/
theorem charListLt_cons_iff (x y : Char) (xs ys : List Char) :
    charListLt (x :: xs) (y :: ys) = true ↔
      x.toNat < y.toNat ∨ (x.toNat = y.toNat ∧ charListLt xs ys = true) := by
  simp only [charListLt]
  by_cases h1 : x.toNat < y.toNat
  · simp [h1]
  · by_cases h2 : y.toNat < x.toNat
    · rw [if_neg h1, if_pos h2]
      constructor
      · intro h; cases h
      · rintro (h | ⟨h, -⟩) <;> omega
    · have hxy : x.toNat = y.toNat := by omega
      rw [if_neg h1, if_neg h2]
      constructor
      · intro h; exact Or.inr ⟨hxy, h⟩
      · rintro (h | ⟨-, h⟩)
        · omega
        · exact h

/-- Totality of the lexicographic order on character lists. -/
theorem charListLe_total (a b : List Char) :
    charListLe a b = true ∨ charListLe b a = true := by
  induction a generalizing b with
  | nil => left; simp [charListLe]
  | cons x xs ih =>
    cases b with
    | nil => right; simp [charListLe]
    | cons y ys =>
      rw [charListLe_cons_iff, charListLe_cons_iff]
      rcases ih ys with h | h
      · by_cases h1 : x.toNat < y.toNat
        · exact Or.inl (Or.inl h1)
        · by_cases h2 : y.toNat < x.toNat
          · exact Or.inr (Or.inl h2)
          · exact Or.inl (Or.inr ⟨by omega, h⟩)
      · by_cases h1 : x.toNat < y.toNat
        · exact Or.inl (Or.inl h1)
        · by_cases h2 : y.toNat < x.toNat
          · exact Or.inr (Or.inl h2)
          · exact Or.inr (Or.inr ⟨by omega, h⟩)

/-- Transitivity of the lexicographic order on character lists. -/
theorem charListLe_trans {a b c : List Char} (hab : charListLe a b = true)
    (hbc : charListLe b c = true) : charListLe a c = true := by
  induction a generalizing b c with
  | nil => simp [charListLe]
  | cons x xs ih =>
    cases b with
    | nil => simp [charListLe] at hab
    | cons y ys =>
      cases c with
      | nil => simp [charListLe] at hbc
      | cons z zs =>
        rw [charListLe_cons_iff] at hab hbc ⊢
        rcases hab with h1 | ⟨h1, h1'⟩
        · rcases hbc with h2 | ⟨h2, -⟩
          · exact Or.inl (by omega)
          · exact Or.inl (by omega)
        · rcases hbc with h2 | ⟨h2, h2'⟩
          · exact Or.inl (by omega)
          · exact Or.inr ⟨by omega, ih h1' h2'⟩

/-- Antisymmetry of the lexicographic order on character lists. -/
theorem charListLe_antisymm {a b : List Char} (hab : charListLe a b = true)
    (hba : charListLe b a = true) : a = b := by
  induction a generalizing b with
  | nil =>
    cases b with
    | nil => rfl
    | cons y ys => simp [charListLe] at hba
  | cons x xs ih =>
    cases b with
    | nil => simp [charListLe] at hab
    | cons y ys =>
      rw [charListLe_cons_iff] at hab hba
      rcases hab with h1 | ⟨h1, h1'⟩
      · rcases hba with h2 | ⟨h2, -⟩ <;> omega
      · rcases hba with h2 | ⟨h2, h2'⟩
        · omega
        · have hx : x = y := Char.ext (UInt32.ext h1)
          rw [hx, ih h1' h2']

/-- A non-strict lexicographic comparison between different lists is strict. -/
theorem charListLt_of_le_of_ne {a b : List Char} (hab : charListLe a b = true)
    (hne : a ≠ b) : charListLt a b = true := by
  induction a generalizing b with
  | nil =>
    cases b with
    | nil => exact absurd rfl hne
    | cons y ys => simp [charListLt]
  | cons x xs ih =>
    cases b with
    | nil => simp [charListLe] at hab
    | cons y ys =>
      rw [charListLe_cons_iff] at hab
      rw [charListLt_cons_iff]
      rcases hab with h1 | ⟨h1, h1'⟩
      · exact Or.inl h1
      · have hx : x = y := Char.ext (UInt32.ext h1)
        refine Or.inr ⟨h1, ih h1' ?_⟩
        intro hxs
        exact hne (by rw [hx, hxs])

/-- Strings with the same character data are equal. -/
theorem string_data_eq {a b : String} (h : a.data = b.data) : a = b := by
  cases a; cases b; exact congrArg String.mk h

/-- Totality of `strLe`. -/
theorem strLe_total (a b : String) : strLe a b = true ∨ strLe b a = true :=
  charListLe_total a.data b.data

/-- Transitivity of `strLe`. -/
theorem strLe_trans {a b c : String} (hab : strLe a b = true)
    (hbc : strLe b c = true) : strLe a c = true :=
  charListLe_trans hab hbc

/-- Antisymmetry of `strLe`. -/
theorem strLe_antisymm {a b : String} (hab : strLe a b = true)
    (hba : strLe b a = true) : a = b :=
  string_data_eq (charListLe_antisymm hab hba)

/-- Distinct `strLe`-comparable strings are `strLt`-comparable. -/
theorem strLt_of_le_of_ne {a b : String} (hab : strLe a b = true)
    (hne : a ≠ b) : strLt a b = true :=
  charListLt_of_le_of_ne hab (fun h => hne (string_data_eq h))

/-- Inserting a key is a permutation of consing it. -/
theorem insertKey_perm (x : String) (l : List String) :
    List.Perm (insertKey x l) (x :: l) := by
  induction l with
  | nil => exact List.Perm.refl _
  | cons y ys ih =>
    by_cases h : strLe x y = true
    · simp [insertKey, h]
    · simp only [insertKey, h, if_false]
      exact (ih.cons y).trans (List.Perm.swap x y ys)

/-- Membership in an insertion. -/
theorem mem_insertKey {z x : String} {l : List String} :
    z ∈ insertKey x l ↔ z = x ∨ z ∈ l := by
  rw [(insertKey_perm x l).mem_iff]
  simp

/-- Sorting is a permutation of the input. -/
theorem sortKeys_perm (l : List String) : List.Perm (sortKeys l) l := by
  induction l with
  | nil => exact List.Perm.refl _
  | cons x xs ih =>
    exact (insertKey_perm x (sortKeys xs)).trans (ih.cons x)

/-- Membership is preserved by sorting. -/
theorem mem_sortKeys {x : String} {l : List String} :
    x ∈ sortKeys l ↔ x ∈ l :=
  (sortKeys_perm l).mem_iff

/-- Insertion preserves sortedness by `strLe`. -/
theorem insertKey_sorted (x : String) {l : List String}
    (hl : l.Pairwise (fun a b => strLe a b = true)) :
    (insertKey x l).Pairwise (fun a b => strLe a b = true) := by
  induction l with
  | nil => simp [insertKey]
  | cons y ys ih =>
    rw [List.pairwise_cons] at hl
    obtain ⟨hy, hys⟩ := hl
    by_cases h : strLe x y = true
    · rw [insertKey, if_pos h, List.pairwise_cons]
      refine ⟨?_, List.Pairwise.cons hy hys⟩
      intro z hz
      rcases List.mem_cons.mp hz with hz | hz
      · subst hz; exact h
      · exact strLe_trans h (hy z hz)
    · rw [insertKey, if_neg h, List.pairwise_cons]
      refine ⟨?_, ih hys⟩
      intro z hz
      rcases mem_insertKey.mp hz with hz | hz
      · subst hz
        rcases strLe_total z y with h' | h'
        · exact absurd h' h
        · exact h'
      · exact hy z hz

/-- The sorted key list is sorted by `strLe`. -/
theorem sortKeys_sorted (l : List String) :
    (sortKeys l).Pairwise (fun a b => strLe a b = true) := by
  induction l with
  | nil => simp [sortKeys]
  | cons x xs ih => exact insertKey_sorted x ih

/-- Group keys are exactly the `county_state` values of the input. -/
theorem mem_groupKeys {k : String} {df : List Row} :
    k ∈ groupKeys df ↔ k ∈ df.map Row.county_state := by
  rw [groupKeys, mem_sortKeys, List.mem_dedup]

/-- Group keys are distinct. -/
theorem groupKeys_nodup (df : List Row) : (groupKeys df).Nodup :=
  ((sortKeys_perm _).nodup_iff).mpr (List.nodup_dedup _)

/-- Group keys are strictly ascending in lexicographic order. -/
theorem groupKeys_sorted_lt (df : List Row) :
    (groupKeys df).Pairwise (fun a b => strLt a b = true) := by
  have hle : (groupKeys df).Pairwise (fun a b => strLe a b = true) :=
    sortKeys_sorted _
  have hne : (groupKeys df).Pairwise (fun a b => a ≠ b) := groupKeys_nodup df
  exact (hle.and hne).imp (fun h => strLt_of_le_of_ne h.1 h.2)

/-- There are as many group keys as distinct `county_state` values. -/
theorem groupKeys_length (df : List Row) :
    (groupKeys df).length = (df.map Row.county_state).dedup.length :=
  (sortKeys_perm _).length_eq

/-- String concatenation concatenates character data. -/
theorem str_data_append (a b : String) : (a ++ b).data = a.data ++ b.data := rfl

/-- Rebuilding a string from its character data is the identity. -/
theorem str_mk_data (s : String) : String.mk s.data = s := rfl

/-- A field that needs no quoting is rendered verbatim. -/
theorem csvField_of_clean {z : String} (h : needsQuoting z = false) :
    csvField z = z := by
  rw [csvField, if_neg]
  simp [h]

/-- A field that needs no quoting contains no newline. -/
theorem newline_not_mem_of_clean {z : String} (h : needsQuoting z = false) :
    '\n' ∉ z.data := by
  intro hmem
  rw [needsQuoting, List.any_eq_false] at h
  have := h '\n' hmem
  simp at this

/-- Splitting a chunk with no newline followed by a newline emits one line. -/
theorem splitLinesAux_chunk (xs : List Char) (rest : List Char)
    (acc : List Char) (hnl : ∀ c ∈ xs, c ≠ '\n') :
    splitLinesAux (xs ++ '\n' :: rest) acc
      = (acc.reverse ++ xs) :: splitLinesAux rest [] := by
  induction xs generalizing acc with
  | nil => simp [splitLinesAux]
  | cons c cs ih =>
    have hc : c ≠ '\n' := hnl c (List.mem_cons_self c cs)
    have hcs : ∀ x ∈ cs, x ≠ '\n' := fun x hx => hnl x (List.mem_cons_of_mem c hx)
    have h1 : splitLinesAux ((c :: cs) ++ '\n' :: rest) acc
        = splitLinesAux (cs ++ '\n' :: rest) (c :: acc) := by
      simp only [List.cons_append, splitLinesAux, if_neg hc, List.append_eq]
    rw [h1, ih (c :: acc) hcs]
    simp

/-- Splitting the CSV data lines of quote-free fields recovers the fields
(plus the empty fragment after the final newline). -/
theorem splitLinesAux_csvBody (zs : List String)
    (hclean : ∀ z ∈ zs, needsQuoting z = false) :
    splitLinesAux (csvBody zs).data [] = zs.map String.data ++ [[]] := by
  induction zs with
  | nil => simp [csvBody, splitLinesAux]
  | cons z zs ih =>
    have hz : needsQuoting z = false := hclean z (List.mem_cons_self z zs)
    have hzs : ∀ x ∈ zs, needsQuoting x = false :=
      fun x hx => hclean x (List.mem_cons_of_mem z hx)
    have hdata : (csvBody (z :: zs)).data = z.data ++ '\n' :: (csvBody zs).data := by
      rw [csvBody, csvField_of_clean hz, str_data_append, str_data_append]
      simp
    rw [hdata, splitLinesAux_chunk z.data _ [] (fun c hc => by
      intro hcn; exact newline_not_mem_of_clean hz (hcn ▸ hc)), ih hzs]
    simp

/-- Rebuilding every string of a list from its character data is the
identity. -/
theorem map_mk_comp_data (zs : List String) :
    List.map (String.mk ∘ String.data) zs = zs := by
  induction zs with
  | nil => rfl
  | cons z l ih => simp only [List.map_cons, Function.comp_apply, str_mk_data, ih]

/-- Splitting the full CSV text of quote-free fields yields the header, the
fields, and the empty fragment after the final newline. -/
theorem splitLines_to_csv (zs : List String)
    (hclean : ∀ z ∈ zs, needsQuoting z = false) :
    splitLines (to_csv zs) = "zipcode" :: zs ++ [""] := by
  have hdata : (to_csv zs).data
      = "zipcode".data ++ '\n' :: (csvBody zs).data := by
    rw [to_csv, str_data_append]
    rfl
  rw [splitLines, hdata,
    splitLinesAux_chunk "zipcode".data _ [] (by decide),
    splitLinesAux_csvBody zs hclean]
  simp only [List.reverse_nil, List.nil_append, List.map_cons, List.map_append,
    List.map_map, List.map_nil, map_mk_comp_data]
  rfl

/-- The body lines of the CSV of quote-free fields are exactly the fields. -/
theorem bodyLines_to_csv (zs : List String)
    (hclean : ∀ z ∈ zs, needsQuoting z = false) :
    bodyLines (to_csv zs) = zs := by
  rw [bodyLines, splitLines_to_csv zs hclean]
  simp

/-- The first line of the CSV of quote-free fields is the header. -/
theorem headerLine_to_csv (zs : List String)
    (hclean : ∀ z ∈ zs, needsQuoting z = false) :
    (splitLines (to_csv zs)).head? = some "zipcode" := by
  rw [splitLines_to_csv zs hclean]
  rfl

/-- Unfold the archive builder to its map-over-group-keys form. -/
theorem create_zip_archive_eq (now : DateTime) (rows : List Row) :
    create_zip_archive now rows = (groupKeys rows).map (fun k =>
      { filename := entryFilename k (tsFormat now),
        content := to_csv ((groupRows rows k).map Row.zipcode) }) := rfl

/-- Zipcodes of a group inherit quote-freeness from the input rows. -/
theorem group_zipcodes_clean {rows : List Row} {k : String}
    (hclean : ∀ r ∈ rows, needsQuoting r.zipcode = false) :
    ∀ z ∈ (groupRows rows k).map Row.zipcode, needsQuoting z = false := by
  intro z hz
  rcases List.mem_map.mp hz with ⟨r, hr, rfl⟩
  exact hclean r (List.mem_of_mem_filter hr)

/-- The archive has one entry per group key, carrying that group's
filename and CSV content; for quote-free zipcodes the CSV splits into the
header line, the group's zipcodes, and the trailing empty fragment. -/
theorem archive_entry_of_key (now : DateTime) (rows : List Row) (k : String)
    (hk : k ∈ groupKeys rows)
    (hclean : ∀ r ∈ rows, needsQuoting r.zipcode = false) :
    ∃ e ∈ create_zip_archive now rows,
      e.filename = entryFilename k (tsFormat now) ∧
      e.content = to_csv ((groupRows rows k).map Row.zipcode) ∧
      (splitLines e.content).head? = some "zipcode" ∧
      bodyLines e.content = (groupRows rows k).map Row.zipcode := by
  rw [create_zip_archive_eq]
  refine ⟨_, List.mem_map_of_mem _ hk, rfl, rfl, ?_, ?_⟩
  · exact headerLine_to_csv _ (group_zipcodes_clean hclean)
  · exact bodyLines_to_csv _ (group_zipcodes_clean hclean)

/-- Concatenating the groups of a key list that is duplicate-free and
covers every row is a permutation of the rows. -/
theorem perm_join_groups (keys : List String) (rows : List Row)
    (hnd : keys.Nodup) (hcov : ∀ r ∈ rows, r.county_state ∈ keys) :
    List.Perm ((keys.map (fun k => groupRows rows k)).flatten) rows := by
  induction keys generalizing rows with
  | nil =>
    cases rows with
    | nil => simp
    | cons r rs => exact absurd (hcov r (List.mem_cons_self r rs)) (List.not_mem_nil _)
  | cons k ks ih =>
    have hnd' : ks.Nodup := (List.nodup_cons.mp hnd).2
    have hknotin : k ∉ ks := (List.nodup_cons.mp hnd).1
    have hmapeq : ks.map (fun k' => groupRows rows k')
        = ks.map (fun k' => groupRows (rows.filter (fun r => !(r.county_state == k))) k') := by
      apply List.map_congr_left
      intro k' hk'
      have hk'ne : k' ≠ k := fun h => hknotin (h ▸ hk')
      rw [groupRows, groupRows, List.filter_filter]
      apply List.filter_congr
      intro r hr
      by_cases h : r.county_state = k'
      · simp [h, hk'ne]
      · simp [h]
    have hcov' : ∀ r ∈ rows.filter (fun r => !(r.county_state == k)),
        r.county_state ∈ ks := by
      intro r hr
      have hrrows : r ∈ rows := List.mem_of_mem_filter hr
      have hne : ¬ (r.county_state == k) = true := by
        have := List.of_mem_filter hr
        simpa using this
      rcases List.mem_cons.mp (hcov r hrrows) with h | h
      · exact absurd (by simp [h]) hne
      · exact h
    have p1 := ih (rows.filter (fun r => !(r.county_state == k))) hnd' hcov'
    have p2 := p1.append_left (groupRows rows k)
    have p3 : List.Perm
        (groupRows rows k ++ rows.filter (fun r => !(r.county_state == k))) rows := by
      rw [groupRows]
      exact List.filter_append_perm _ rows
    rw [List.map_cons, List.flatten_cons, hmapeq]
    exact p2.trans p3

/-- Concatenating the body lines of every archive entry permutes the input
zipcodes (quote-free zipcodes render verbatim). -/
theorem archive_bodies_perm (now : DateTime) (rows : List Row)
    (hclean : ∀ r ∈ rows, needsQuoting r.zipcode = false) :
    List.Perm (((create_zip_archive now rows).map (fun e => bodyLines e.content)).flatten)
      (rows.map Row.zipcode) := by
  rw [create_zip_archive_eq, List.map_map]
  have h1 : (groupKeys rows).map
        ((fun e : Entry => bodyLines e.content) ∘ (fun k =>
          { filename := entryFilename k (tsFormat now),
            content := to_csv ((groupRows rows k).map Row.zipcode) : Entry }))
      = (groupKeys rows).map (fun k => (groupRows rows k).map Row.zipcode) := by
    apply List.map_congr_left
    intro k hk
    exact bodyLines_to_csv _ (group_zipcodes_clean hclean)
  rw [h1]
  have h2 : (groupKeys rows).map (fun k => (groupRows rows k).map Row.zipcode)
      = ((groupKeys rows).map (fun k => groupRows rows k)).map (List.map Row.zipcode) := by
    rw [List.map_map]
    rfl
  rw [h2, ← List.map_flatten]
  exact (perm_join_groups (groupKeys rows) rows (groupKeys_nodup rows)
    (fun r hr => mem_groupKeys.mpr (List.mem_map_of_mem Row.county_state hr))).map
    Row.zipcode

/-- Counting a zipcode in a mapped row list counts the matching rows. -/
theorem count_map_zipcode (z : String) (l : List Row) :
    (l.map Row.zipcode).count z = (l.filter (fun r => r.zipcode == z)).length := by
  rw [List.count, List.countP_map, List.countP_eq_length_filter]
  rfl

/-- Two `strLe`-sorted lists that are permutations of each other are equal. -/
theorem sorted_strLe_unique {l₁ l₂ : List String} (hp : List.Perm l₁ l₂)
    (h₁ : l₁.Pairwise (fun a b => strLe a b = true))
    (h₂ : l₂.Pairwise (fun a b => strLe a b = true)) : l₁ = l₂ := by
  induction l₁ generalizing l₂ with
  | nil => exact (hp.nil_eq).symm ▸ rfl
  | cons x xs ih =>
    cases l₂ with
    | nil => exact absurd hp.symm.nil_eq (by simp)
    | cons y ys =>
      rw [List.pairwise_cons] at h₁ h₂
      have hxy : x = y := by
        have hxmem : x ∈ y :: ys := hp.mem_iff.mp (List.mem_cons_self x xs)
        have hymem : y ∈ x :: xs := hp.mem_iff.mpr (List.mem_cons_self y ys)
        rcases List.mem_cons.mp hxmem with h | h
        · exact h
        · rcases List.mem_cons.mp hymem with h' | h'
          · exact h'.symm
          · exact strLe_antisymm (h₁.1 y h') (h₂.1 x h)
      subst hxy
      have htail : List.Perm xs ys := (List.perm_cons x).mp hp
      rw [ih htail h₁.2 h₂.2]

/-- The fixed build time used by the concrete examples. -/
def exampleNow : DateTime := ⟨2023, 11, 5, 4, 58, 48⟩

/-- The worked example of the specification: two Los Angeles zipcodes and
one New York zipcode. -/
def exampleRows : List Row :=
  [{ zipcode := "90001", county_state := "Los Angeles, California" },
   { zipcode := "90210", county_state := "Los Angeles, California" },
   { zipcode := "10001", county_state := "New York, New York" }]

/-- The same set of `county_state` values as `exampleRows`, with different
row order and multiplicities. -/
def exampleRows2 : List Row :=
  [{ zipcode := "10001", county_state := "New York, New York" },
   { zipcode := "90210", county_state := "Los Angeles, California" }]

/-- Two distinct `county_state` values whose sanitized filenames coincide. -/
def collidingRows : List Row :=
  [{ zipcode := "90001", county_state := "Los Angeles, CA" },
   { zipcode := "10001", county_state := "Los, Angeles CA" }]

/-- A raw record whose zipcode has a leading zero. -/
def leadingZeroRaw : RawRecord :=
  { zipcode := "00501", county := "Suffolk", state := "New York" }

/-- C1: for every input row sequence whose zipcodes are free of CSV
delimiter characters (as zipcodes are) and every `county_state` group in
it, the archive entry written for that group is a CSV whose first line is
the header `zipcode` and whose body lines are exactly the zipcodes of the
group's records; in particular any zipcode `z` appears in that body exactly
as many times as records of the group carry it. -/
theorem claim_C1_entry_content (now : DateTime) (rows : List Row) (k : String)
    (z : String) (hk : k ∈ groupKeys rows)
    (hclean : ∀ r ∈ rows, needsQuoting r.zipcode = false) :
    ∃ e ∈ create_zip_archive now rows,
      e.filename = entryFilename k (tsFormat now) ∧
      (splitLines e.content).head? = some "zipcode" ∧
      bodyLines e.content = (groupRows rows k).map Row.zipcode ∧
      (bodyLines e.content).count z
        = ((groupRows rows k).filter (fun r => r.zipcode == z)).length := by
  obtain ⟨e, he, hfn, _, hhd, hbody⟩ := archive_entry_of_key now rows k hk hclean
  refine ⟨e, he, hfn, hhd, hbody, ?_⟩
  rw [hbody, count_map_zipcode]

/-- Witness for C1 at the specification's worked example: the Los Angeles
group of `exampleRows`, counting the zipcode 90210. -/
theorem claim_C1_witness :
    "Los Angeles, California" ∈ groupKeys exampleRows ∧
    (∀ r ∈ exampleRows, needsQuoting r.zipcode = false) ∧
    ∃ e ∈ create_zip_archive exampleNow exampleRows,
      e.filename = entryFilename "Los Angeles, California" (tsFormat exampleNow) ∧
      (splitLines e.content).head? = some "zipcode" ∧
      bodyLines e.content
        = (groupRows exampleRows "Los Angeles, California").map Row.zipcode ∧
      (bodyLines e.content).count "90210"
        = ((groupRows exampleRows "Los Angeles, California").filter
            (fun r => r.zipcode == "90210")).length :=
  ⟨by decide, by decide,
    claim_C1_entry_content exampleNow exampleRows "Los Angeles, California"
      "90210" (by decide) (by decide)⟩

/-- C2: round-trip — concatenating the body lines of every entry of the
produced archive yields exactly the multiset of zipcodes of the input
(zipcodes being free of CSV delimiter characters, so they render
verbatim). -/
theorem claim_C2_roundtrip (now : DateTime) (rows : List Row)
    (hclean : ∀ r ∈ rows, needsQuoting r.zipcode = false) :
    (((create_zip_archive now rows).map
        (fun e => bodyLines e.content)).flatten : Multiset String)
      = (rows.map Row.zipcode : Multiset String) :=
  Multiset.coe_eq_coe.mpr (archive_bodies_perm now rows hclean)

/-- Witness for C2 at the specification's worked example. -/
theorem claim_C2_witness :
    (∀ r ∈ exampleRows, needsQuoting r.zipcode = false) ∧
    (((create_zip_archive exampleNow exampleRows).map
        (fun e => bodyLines e.content)).flatten : Multiset String)
      = (exampleRows.map Row.zipcode : Multiset String) :=
  ⟨by decide, claim_C2_roundtrip exampleNow exampleRows (by decide)⟩

/-- C3: for every non-empty input, the number of entries written into the
archive equals the number of distinct `county_state` values of the input. -/
theorem claim_C3_entry_count (now : DateTime) (rows : List Row)
    (hne : rows ≠ []) :
    (create_zip_archive now rows).length
      = (rows.map Row.county_state).toFinset.card := by
  rw [create_zip_archive_eq, List.length_map, groupKeys_length,
    List.card_toFinset]

/-- Witness for C3 at the specification's worked example: three rows, two
distinct counties, two entries. -/
theorem claim_C3_witness :
    exampleRows ≠ [] ∧
    (create_zip_archive exampleNow exampleRows).length
      = (exampleRows.map Row.county_state).toFinset.card :=
  ⟨by decide, claim_C3_entry_count exampleNow exampleRows (by decide)⟩

/-- C4: every entry's filename is the group key with each `", "` replaced
by `"_"`, then each remaining space replaced by `"_"`, then an underscore,
the `%Y%m%d_%H%M%S` build timestamp, and the `.csv` extension; and
sanitizing `"Los Angeles, California"` yields
`"Los_Angeles_California"`. -/
theorem claim_C4_filename_policy (now : DateTime) (rows : List Row)
    (e : Entry) (he : e ∈ create_zip_archive now rows) :
    (∃ k ∈ groupKeys rows,
        e.filename
          = replaceAll (replaceAll k ", " "_") " " "_"
              ++ "_" ++ tsFormat now ++ ".csv")
      ∧ sanitize "Los Angeles, California" = "Los_Angeles_California" := by
  constructor
  · rw [create_zip_archive_eq] at he
    rcases List.mem_map.mp he with ⟨k, hk, rfl⟩
    exact ⟨k, hk, rfl⟩
  · decide

/-- Witness for C4 at the first entry of the worked example's archive. -/
theorem claim_C4_witness :
    { filename := "Los_Angeles_California_20231105_045848.csv",
      content := "zipcode\n90001\n90210\n" : Entry }
        ∈ create_zip_archive exampleNow exampleRows ∧
    ((∃ k ∈ groupKeys exampleRows,
        ({ filename := "Los_Angeles_California_20231105_045848.csv",
           content := "zipcode\n90001\n90210\n" : Entry }).filename
          = replaceAll (replaceAll k ", " "_") " " "_"
              ++ "_" ++ tsFormat exampleNow ++ ".csv")
      ∧ sanitize "Los Angeles, California" = "Los_Angeles_California") :=
  ⟨by decide, claim_C4_filename_policy exampleNow exampleRows _ (by decide)⟩

/-- Counterexample to C5: the input `collidingRows` has two distinct
`county_state` values that sanitize to the same string, and the produced
archive then contains TWO entries with the same filename — `writestr` does
not overwrite the earlier entry, it appends a duplicate. -/
theorem claim_C5_counterexample :
    ("Los Angeles, CA" : String) ≠ "Los, Angeles CA" ∧
    sanitize "Los Angeles, CA" = sanitize "Los, Angeles CA" ∧
    (create_zip_archive exampleNow collidingRows).map Entry.filename
      = ["Los_Angeles_CA_20231105_045848.csv",
         "Los_Angeles_CA_20231105_045848.csv"] ∧
    ¬ ((create_zip_archive exampleNow collidingRows).map Entry.filename).Nodup :=
  ⟨by decide, by decide, by decide, by decide⟩

/-- C5 as amended: when two distinct `county_state` values sanitize to the
same string, the build does not crash — it still writes one entry per
distinct `county_state` — but the entries' filenames are NOT unique: the
second colliding write is appended alongside the first instead of
overwriting it. -/
theorem claim_C5_amended (now : DateTime) (rows : List Row) (k1 k2 : String)
    (h1 : k1 ∈ groupKeys rows) (h2 : k2 ∈ groupKeys rows) (hne : k1 ≠ k2)
    (hs : sanitize k1 = sanitize k2) :
    ¬ ((create_zip_archive now rows).map Entry.filename).Nodup ∧
    (create_zip_archive now rows).length = (groupKeys rows).length := by
  constructor
  · intro hnd
    rw [create_zip_archive_eq, List.map_map] at hnd
    have hinj := List.inj_on_of_nodup_map hnd h1 h2
    have hfeq : entryFilename k1 (tsFormat now) = entryFilename k2 (tsFormat now) := by
      rw [entryFilename, entryFilename, hs]
    exact hne (hinj hfeq)
  · rw [create_zip_archive_eq, List.length_map]

/-- Witness for the amended C5 at the concrete colliding input. -/
theorem claim_C5_witness :
    "Los Angeles, CA" ∈ groupKeys collidingRows ∧
    "Los, Angeles CA" ∈ groupKeys collidingRows ∧
    ("Los Angeles, CA" : String) ≠ "Los, Angeles CA" ∧
    sanitize "Los Angeles, CA" = sanitize "Los, Angeles CA" ∧
    (¬ ((create_zip_archive exampleNow collidingRows).map Entry.filename).Nodup ∧
      (create_zip_archive exampleNow collidingRows).length
        = (groupKeys collidingRows).length) :=
  ⟨by decide, by decide, by decide, by decide,
    claim_C5_amended exampleNow collidingRows "Los Angeles, CA" "Los, Angeles CA"
      (by decide) (by decide) (by decide) (by decide)⟩

/-- Counterexample to C6: on a failing fetch, `load_data` does not return
an error value distinguishable from a successfully loaded empty table —
the dataframe it returns is exactly the one a successful zero-record load
returns. -/
theorem claim_C6_counterexample :
    (load_data (Except.error "connection refused")).1 = [] ∧
    (load_data (Except.error "connection refused")).1
      = (load_data (Except.ok [])).1 :=
  ⟨rfl, rfl⟩

/-- C6 as amended: on any fetch or transform failure, `load_data` shows a
human-readable message carrying the cause and returns an empty dataframe;
that return value is not distinguishable from a successfully loaded
zero-record table, so the caller must treat an empty table as failure
(which `main` does via `df.empty`). -/
theorem claim_C6_amended (e : String) :
    (load_data (Except.error e)).1 = [] ∧
    (load_data (Except.error e)).2
      = some ("Failed to load data. Please check the data source. Error: " ++ e) ∧
    (load_data (Except.error e)).1 = (load_data (Except.ok [])).1 :=
  ⟨rfl, rfl, rfl⟩

/-- C7: the empty input produces an archive with zero entries, without
error. -/
theorem claim_C7_empty_input (now : DateTime) :
    create_zip_archive now [] = [] := rfl

/-- C8: a zipcode string is preserved verbatim through load, filter and
CSV rendering. Loading keeps every zipcode character for character
(`astype(str)` on the string column), and for any selected record the
entry of its `county_state` group carries the source zipcode string
unchanged among its body lines. -/
theorem claim_C8_zipcode_verbatim (raws : List RawRecord)
    (selected : List String) (r : RawRecord) (now : DateTime)
    (hr : r ∈ raws)
    (hsel : (r.county ++ ", " ++ r.state) ∈ selected)
    (hclean : ∀ x ∈ raws, needsQuoting x.zipcode = false) :
    ((load_data (Except.ok raws)).1.map Row.zipcode
        = raws.map RawRecord.zipcode) ∧
    ∃ e ∈ create_zip_archive now
        (filterRows (load_data (Except.ok raws)).1 selected),
      e.filename = entryFilename (r.county ++ ", " ++ r.state) (tsFormat now) ∧
      r.zipcode ∈ bodyLines e.content := by
  have hdf : (load_data (Except.ok raws)).1 = raws.map toRow := rfl
  constructor
  · rw [hdf, List.map_map]
    rfl
  · have hmemdf : toRow r ∈ (load_data (Except.ok raws)).1 := by
      rw [hdf]
      exact List.mem_map_of_mem toRow hr
    have hmemf : toRow r ∈ filterRows (load_data (Except.ok raws)).1 selected := by
      rw [filterRows]
      refine List.mem_filter.mpr ⟨hmemdf, ?_⟩
      simpa [toRow] using hsel
    have hclean' : ∀ row ∈ filterRows (load_data (Except.ok raws)).1 selected,
        needsQuoting row.zipcode = false := by
      intro row hrow
      have hrowdf : row ∈ (load_data (Except.ok raws)).1 :=
        List.mem_of_mem_filter hrow
      rw [hdf] at hrowdf
      rcases List.mem_map.mp hrowdf with ⟨x, hx, rfl⟩
      exact hclean x hx
    have hkmem : (r.county ++ ", " ++ r.state)
        ∈ groupKeys (filterRows (load_data (Except.ok raws)).1 selected) := by
      rw [mem_groupKeys]
      exact List.mem_map.mpr ⟨toRow r, hmemf, rfl⟩
    obtain ⟨e, he, hfn, _, _, hbody⟩ :=
      archive_entry_of_key now _ _ hkmem hclean'
    refine ⟨e, he, hfn, ?_⟩
    rw [hbody]
    refine List.mem_map.mpr ⟨toRow r, ?_, rfl⟩
    rw [groupRows]
    refine List.mem_filter.mpr ⟨hmemf, ?_⟩
    simp [toRow]

/-- Witness for C8 at a zipcode with leading zeros: 00501 survives load,
filter and CSV rendering character for character. -/
theorem claim_C8_witness :
    leadingZeroRaw ∈ [leadingZeroRaw] ∧
    (leadingZeroRaw.county ++ ", " ++ leadingZeroRaw.state)
      ∈ ["Suffolk, New York"] ∧
    (∀ x ∈ [leadingZeroRaw], needsQuoting x.zipcode = false) ∧
    (((load_data (Except.ok [leadingZeroRaw])).1.map Row.zipcode
        = [leadingZeroRaw].map RawRecord.zipcode) ∧
      ∃ e ∈ create_zip_archive exampleNow
          (filterRows (load_data (Except.ok [leadingZeroRaw])).1
            ["Suffolk, New York"]),
        e.filename = entryFilename
          (leadingZeroRaw.county ++ ", " ++ leadingZeroRaw.state)
          (tsFormat exampleNow) ∧
        leadingZeroRaw.zipcode ∈ bodyLines e.content) :=
  ⟨by decide, by decide, by decide,
    claim_C8_zipcode_verbatim [leadingZeroRaw] ["Suffolk, New York"]
      leadingZeroRaw exampleNow (by decide) (by decide) (by decide)⟩

/-- C9: within one build, every entry's filename carries the same
timestamp string `tsFormat now`, computed once from the build instant and
shared by all entries. -/
theorem claim_C9_shared_timestamp (now : DateTime) (rows : List Row)
    (e : Entry) (he : e ∈ create_zip_archive now rows) :
    ∃ k ∈ groupKeys rows, e.filename = entryFilename k (tsFormat now) := by
  rw [create_zip_archive_eq] at he
  rcases List.mem_map.mp he with ⟨k, hk, rfl⟩
  exact ⟨k, hk, rfl⟩

/-- Witness for C9 at the second entry of the worked example's archive. -/
theorem claim_C9_witness :
    { filename := "New_York_New_York_20231105_045848.csv",
      content := "zipcode\n10001\n" : Entry }
        ∈ create_zip_archive exampleNow exampleRows ∧
    ∃ k ∈ groupKeys exampleRows,
      ({ filename := "New_York_New_York_20231105_045848.csv",
         content := "zipcode\n10001\n" : Entry }).filename
        = entryFilename k (tsFormat exampleNow) :=
  ⟨by decide, claim_C9_shared_timestamp exampleNow exampleRows _ (by decide)⟩

/-- C10: the archive's entries appear in ascending lexicographic order of
their `county_state` group key, and the sequence of filenames is a
function of the set of `county_state` values alone — two inputs with the
same value set (whatever their row order or multiplicities) produce the
same entry sequence. -/
theorem claim_C10_entry_order (now : DateTime) (rows rows2 : List Row)
    (h12 : ∀ k ∈ rows.map Row.county_state, k ∈ rows2.map Row.county_state)
    (h21 : ∀ k ∈ rows2.map Row.county_state, k ∈ rows.map Row.county_state) :
    (create_zip_archive now rows).map Entry.filename
        = (groupKeys rows).map (fun k => entryFilename k (tsFormat now)) ∧
    (groupKeys rows).Pairwise (fun a b => strLt a b = true) ∧
    (create_zip_archive now rows2).map Entry.filename
        = (create_zip_archive now rows).map Entry.filename := by
  have hgk : groupKeys rows2 = groupKeys rows := by
    apply sorted_strLe_unique ?_ (sortKeys_sorted _) (sortKeys_sorted _)
    refine (List.perm_ext_iff_of_nodup (groupKeys_nodup _)
      (groupKeys_nodup _)).mpr ?_
    intro a
    rw [mem_groupKeys, mem_groupKeys]
    exact ⟨fun h => h21 a h, fun h => h12 a h⟩
  refine ⟨?_, groupKeys_sorted_lt rows, ?_⟩
  · rw [create_zip_archive_eq, List.map_map]
    rfl
  · rw [create_zip_archive_eq, create_zip_archive_eq, List.map_map,
      List.map_map, hgk]
    rfl

/-- Witness for C10: `exampleRows2` has the same county set as
`exampleRows` in different order and multiplicity, and both archives list
the same filenames in the same sorted order. -/
theorem claim_C10_witness :
    (∀ k ∈ exampleRows.map Row.county_state,
        k ∈ exampleRows2.map Row.county_state) ∧
    (∀ k ∈ exampleRows2.map Row.county_state,
        k ∈ exampleRows.map Row.county_state) ∧
    ((create_zip_archive exampleNow exampleRows).map Entry.filename
        = (groupKeys exampleRows).map
            (fun k => entryFilename k (tsFormat exampleNow)) ∧
      (groupKeys exampleRows).Pairwise (fun a b => strLt a b = true) ∧
      (create_zip_archive exampleNow exampleRows2).map Entry.filename
        = (create_zip_archive exampleNow exampleRows).map Entry.filename) :=
  ⟨by decide, by decide,
    claim_C10_entry_order exampleNow exampleRows exampleRows2
      (by decide) (by decide)⟩
